import Mathlib

/-!
Verification development for the tree-based nearest-neighbor extraction and
classification engine of the nngenetree pipeline.

The Python analysis scripts are shallowly embedded as executable Lean
definitions:

* `src/bin/extract_closest_neighbors.py` — pure-topology neighbor selector
  (`extract_closest_neighbors`): query resolution, self-hit exclusion,
  tuple sort, ratio cutoff, truncation, degenerate-input sentinels.
* `src/bin/extract_phylogenetic_neighbors.py` — taxonomy-aware selector
  (`extract_neighbors`): stable sort by distance, genome-prefix filter,
  configured query-prefix filter, absolute self-hit threshold.
* `src/workflow/scripts/decorate_tree.py` — identifier variation generation
  (`get_accession_variations`) and rank extraction (`get_taxonomy_level`).
* `src/workflow/scripts/tree_stats.py` — per-query, per-category statistics
  (`calculate_tree_stats`).

Modelling conventions: Python float branch lengths and patristic distances are
embedded as exact rationals (ℚ); leaf scans are lists in tree-traversal order,
with each leaf paired with its patristic distance to the query node as returned
by `tree.get_distance`; Python dicts keyed by strings are association lists;
a computation that raises is embedded as `Except`/`Option`.  Python's `set`
has an unspecified (hash-dependent) iteration order, so `list(set(xs))` is
embedded by quantifying over duplicate-free lists that are permutations of
`xs.dedup`.
-/

/-! ## Python string primitives -/

/-- Lexicographic (code-point) comparison of character lists: the semantics of
Python's `<` on strings restricted to the characters used by the data. -/
def charListLt : List Char → List Char → Bool
  | [], [] => false
  | [], _ :: _ => true
  | _ :: _, [] => false
  | a :: as, b :: bs => if a < b then true else if b < a then false else charListLt as bs

/-- Python string `<`. -/
def strLtB (a b : String) : Bool := charListLt a.toList b.toList

/-- Python `s.startswith(pre)`. -/
def pyStartswith (s pre : String) : Bool := pre.toList.isPrefixOf s.toList

/-- Python `sub in s` (substring containment), on character lists. -/
def isSubstr (sub : List Char) : List Char → Bool
  | [] => sub.isEmpty
  | c :: rest => sub.isPrefixOf (c :: rest) || isSubstr sub rest

/-- Python `s.lower()` (the identifiers and markers involved are ASCII). -/
def pyLowerStr (s : String) : String := String.mk (s.toList.map Char.toLower)

/-- Python `s.strip()`: remove leading and trailing whitespace. -/
def pyStripStr (s : String) : String :=
  String.mk (((s.toList.dropWhile Char.isWhitespace).reverse.dropWhile Char.isWhitespace).reverse)

/-- Python `s.split()[0]`: the first whitespace-delimited token.  (On an
all-whitespace string Python would raise `IndexError`; the FASTA record ids fed
to this expression are non-empty tokens, and the result is `""` there.) -/
def pyFirstToken (s : String) : String :=
  String.mk ((s.toList.dropWhile Char.isWhitespace).takeWhile (fun c => !c.isWhitespace))

/-- Python `s.split(c)` on a single-character separator, on character lists:
`splitOnChar c l` is the list of separator-free chunks; it is never empty and
`splitOnChar c "" = [""]`, as in Python. -/
def splitOnChar (c : Char) : List Char → List (List Char)
  | [] => [[]]
  | x :: xs =>
    let r := splitOnChar c xs
    if x = c then [] :: r
    else
      match r with
      | h :: t => (x :: h) :: t
      | [] => [[x]]

/-- Python `s.split(c)` returning strings. -/
def pySplitChar (c : Char) (s : String) : List String :=
  (splitOnChar c s.toList).map String.mk

/-- The first field of an identifier: `s.split('|')[0] if '|' in s else s`
(the comment in `extract_closest_neighbors.py` calls this "the first field";
the spec calls it the genome prefix).  The substring before the first `'|'` is
exactly the longest `'|'`-free prefix, and when no `'|'` occurs that is the
whole string, so both branches equal the `takeWhile`. -/
def firstField (s : String) : String :=
  String.mk (s.toList.takeWhile (fun c => c != '|'))

/-! ## extract_closest_neighbors.py — pure-topology selector -/

/-- Query resolution (`extract_closest_neighbors`, lines 129–139): try the
variations `[query_id, query_id.split()[0], first field]` in order and accept
the first one that is a leaf name of the tree. -/
def resolveQuery (q : String) (leafNames : List String) : Option String :=
  List.find? (fun v => leafNames.contains v) [q, pyFirstToken q, firstField q]

/-- The `query_filter` guard (lines 125–127): with a non-empty prefix filter, a
query is processed only when its first field starts with one of the prefixes. -/
def queryGuard (prefixFilter : List String) (q : String) : Bool :=
  prefixFilter.isEmpty || prefixFilter.any (fun p => pyStartswith (firstField q) p)

/-- The `query_nodes` mapping (lines 120–142): each surviving query id paired
with the tree leaf name it resolved to; unresolved queries are logged and
dropped.  (The Python dict would collapse duplicate FASTA ids; the claims under
study quantify per query and are unaffected.) -/
def queryNodes (prefixFilter : List String) (queryIds leafNames : List String) :
    List (String × String) :=
  queryIds.filterMap fun q =>
    if queryGuard prefixFilter q then (resolveQuery q leafNames).map (fun t => (q, t))
    else none

/-- The candidate pass (lines 154–166): every leaf other than the resolved
query leaf whose first field differs from the query id's first field, as a
`(distance, name)` tuple in traversal order. -/
def closestCandidates (qid tid : String) (leaves : List (String × ℚ)) : List (ℚ × String) :=
  leaves.filterMap fun p =>
    if p.1 == tid then none
    else if firstField p.1 == firstField qid then none
    else some (p.2, p.1)

/-- Python tuple order on `(distance, name)` pairs: by distance, ties by name.
`distances.sort()` (line 169) sorts by exactly this order. -/
def lexLe (a b : ℚ × String) : Prop :=
  a.1 < b.1 ∨ (a.1 = b.1 ∧ (strLtB a.2 b.2 = true ∨ a.2 = b.2))

instance : DecidableRel lexLe := fun a b => by unfold lexLe; infer_instance

/-- `distances.sort()` (line 169). -/
def sortedCandidates (qid tid : String) (leaves : List (String × ℚ)) : List (ℚ × String) :=
  List.insertionSort lexLe (closestCandidates qid tid leaves)

/-- The ratio-cutoff loop (lines 176–181): a single forward pass that appends
pairs with `dist <= cutoff` and breaks at the first pair exceeding it. -/
def ratioScan (cutoff : ℚ) : List (ℚ × String) → List (ℚ × String)
  | [] => []
  | p :: rest => if p.1 ≤ cutoff then p :: ratioScan cutoff rest else []

/-- Boolean form of the cutoff test, for `takeWhile` statements. -/
def withinCutoff (cutoff : ℚ) (p : ℚ × String) : Bool := decide (p.1 ≤ cutoff)

/-- The per-query selection (lines 168–184): sort, read off `first_distance`,
ratio-scan with cutoff `first_distance * 2`, truncate to `num_neighbors`.
An empty candidate list contributes nothing. -/
def selectClosest (qid tid : String) (leaves : List (String × ℚ)) (num : ℕ) :
    List (ℚ × String) :=
  match sortedCandidates qid tid leaves with
  | [] => []
  | (d0, n0) :: rest => (ratioScan (d0 * 2) ((d0, n0) :: rest)).take num

/-- The output rows of the whole run (lines 144–194), as
`(query_id, neighbor name, distance)` triples (the constant gene column and
the 6-decimal formatting are omitted — no claim concerns them). -/
def extractRows (prefixFilter : List String) (queryIds : List String)
    (leaves : List (String × ℚ)) (num : ℕ) : List (String × String × ℚ) :=
  (queryNodes prefixFilter queryIds (leaves.map Prod.fst)).flatMap fun qt =>
    (selectClosest qt.1 qt.2 leaves num).map fun p => (qt.1, p.2, p.1)

/-- What `extract_closest_neighbors` writes: either a single sentinel comment
line or the normal CSV table. -/
inductive ExtractOutput where
  | sentinel (line : String)
  | table (rows : List (String × String × ℚ))
deriving DecidableEq

/-- The top-level dispatch of `extract_closest_neighbors` (lines 74–108): a
missing tree file is `none`, an empty (size-0) file is `some ""`; each
degenerate condition writes its sentinel line and returns (success); otherwise
the normal table is produced.  The function is total: no exception escapes. -/
def extractTop (treeFile : Option String) (queryIds subjectIds : List String)
    (prefixFilter : List String) (leaves : List (String × ℚ)) (num : ℕ) : ExtractOutput :=
  match treeFile with
  | none => ExtractOutput.sentinel "# No valid tree found"
  | some content =>
    if content = "" then ExtractOutput.sentinel "# No valid tree found"
    else if isSubstr "no hits".toList (pyLowerStr (pyStripStr content)).toList then
      ExtractOutput.sentinel "# Tree indicates no hits"
    else if queryIds.isEmpty then ExtractOutput.sentinel "# No query IDs found"
    else if subjectIds.isEmpty then ExtractOutput.sentinel "# No subject IDs found"
    else ExtractOutput.table (extractRows prefixFilter queryIds leaves num)

/-! ## extract_phylogenetic_neighbors.py — taxonomy-aware selector -/

/-- Sort key of `distances.sort(key=lambda x: x[1])` (line 95): distance only.
Python's sort is stable, and a stable sort by a total preorder is unique, so
insertion sort with this reflexive order (which keeps ties in input order) is
the embedding of the Python sort. -/
def byDist (a b : String × ℚ) : Prop := a.2 ≤ b.2

instance : DecidableRel byDist := fun a b => by unfold byDist; infer_instance

/-- Candidate collection and sort for one query (lines 85–95): all leaves other
than the query leaf, in traversal order, stably sorted by distance.  (The
`try/except` around `get_distance` is dead for leaf pairs and not modelled.) -/
def phyloSortedCandidates (qn : String) (leaves : List (String × ℚ)) : List (String × ℚ) :=
  List.insertionSort byDist (leaves.filter (fun p => p.1 != qn))

/-- The three `continue` guards of the selection loop (lines 102–116), where
`qpre` is the query leaf's first field: same genome prefix; genome prefix equal
to one of the configured query prefixes; same-accession-pattern self-hit below
the absolute threshold. -/
def phyloSkip (qpre : String) (prefixes : List String) (thr : ℚ) (name : String) (d : ℚ) :
    Bool :=
  (firstField name == qpre) ||
  (prefixes.contains (firstField name)) ||
  (pyStartswith name (firstField name) && decide (d < thr))

/-- The selection loop (lines 100–135): walk the sorted candidates, skip
filtered ones, append the rest, and break as soon as the appended count
reaches `num_neighbors` (the length check runs after the append, as in the
Python `if len(neighbors) >= num_neighbors: break`). -/
def phyloLoop (qpre : String) (prefixes : List String) (thr : ℚ) (num : ℕ) :
    ℕ → List (String × ℚ) → List (String × ℚ)
  | _, [] => []
  | count, p :: rest =>
    if phyloSkip qpre prefixes thr p.1 p.2 then phyloLoop qpre prefixes thr num count rest
    else p :: (if count + 1 ≥ num then [] else phyloLoop qpre prefixes thr num (count + 1) rest)

/-- The per-query neighbor list of `extract_neighbors` (taxonomy attachment is
per-record and orthogonal to selection). -/
def phyloSelect (qn : String) (prefixes : List String) (thr : ℚ) (num : ℕ)
    (leaves : List (String × ℚ)) : List (String × ℚ) :=
  phyloLoop (firstField qn) prefixes thr num 0 (phyloSortedCandidates qn leaves)

/-- A leaf is a designated query (lines 65–70) when its name starts with one of
the configured query prefixes. -/
def isQueryLeaf (prefixes : List String) (name : String) : Bool :=
  prefixes.any (fun p => pyStartswith name p)

/-! ## decorate_tree.py — identifier variations and rank extraction -/

/-- Uppercase ASCII letter, the `[A-Z]` character class. -/
def isUpperAZ (c : Char) : Bool := 'A' ≤ c && c ≤ 'Z'

/-- Existence of a match of `re.match(r'[A-Z]+\d+\.\d+', name)` (anchored at
the start; `re.match` succeeds on any prefix).  The classes `[A-Z]`, `\d` and
the literal `.` are pairwise disjoint, so the greedy runs need no backtracking:
a non-empty uppercase run, a non-empty digit run, a dot, a non-empty digit
run. -/
def matchAccVer (l : List Char) : Bool :=
  let r1 := l.dropWhile isUpperAZ
  let r2 := r1.dropWhile Char.isDigit
  decide ((l.takeWhile isUpperAZ) ≠ []) && decide ((r1.takeWhile Char.isDigit) ≠ []) &&
    (match r2 with
     | '.' :: r3 => decide ((r3.takeWhile Char.isDigit) ≠ [])
     | _ => false)

/-- Anchored match of `([A-Z]+_\d+\.\d+)` (the "GenBank" pattern): by class
disjointness the backtracking search degenerates to maximal runs. Returns the
matched group. -/
def matchGenBankAt (l : List Char) : Option (List Char) :=
  let u := l.takeWhile isUpperAZ
  if u = [] then none
  else
    match l.dropWhile isUpperAZ with
    | '_' :: r1 =>
      let d1 := r1.takeWhile Char.isDigit
      if d1 = [] then none
      else
        match r1.dropWhile Char.isDigit with
        | '.' :: r2 =>
          let d2 := r2.takeWhile Char.isDigit
          if d2 = [] then none else some (u ++ '_' :: d1 ++ '.' :: d2)
        | _ => none
    | _ => none

/-- Anchored match of `([A-Z]{1,5}\d{5,8})` (the "RefSeq" pattern).  With
disjoint classes the only viable uppercase count is the full run (must be
1–5), and the greedy digit count is `min(run, 8)` with at least 5 needed. -/
def matchRefSeqAt (l : List Char) : Option (List Char) :=
  let u := l.takeWhile isUpperAZ
  if u = [] || decide (u.length > 5) then none
  else
    let d := (l.dropWhile isUpperAZ).takeWhile Char.isDigit
    if decide (d.length < 5) then none else some (u ++ d.take 8)

/-- Anchored match of `([A-Z]{1,5}\d{5,8}\.\d+)` (the "versioned" pattern).
The digit run before the dot must be taken whole (a shorter greedy choice is
followed by a digit, not `'.'`), so its length must be 5–8. -/
def matchVersionedAt (l : List Char) : Option (List Char) :=
  let u := l.takeWhile isUpperAZ
  if u = [] || decide (u.length > 5) then none
  else
    let r1 := l.dropWhile isUpperAZ
    let d := r1.takeWhile Char.isDigit
    if decide (d.length < 5) || decide (d.length > 8) then none
    else
      match r1.dropWhile Char.isDigit with
      | '.' :: r2 =>
        let d2 := r2.takeWhile Char.isDigit
        if d2 = [] then none else some (u ++ d ++ '.' :: d2)
      | _ => none

/-- `re.search`: try the anchored matcher at each start position, leftmost
first (the end-of-string position can never match these patterns). -/
def searchFirst (f : List Char → Option (List Char)) : List Char → Option (List Char)
  | [] => f []
  | l@(_ :: rest) =>
    match f l with
    | some g => some g
    | none => searchFirst f rest

/-- The variation list of `get_accession_variations` (decorate_tree.py, lines
99–123) in generation order, before the final `list(set(variations))`:
the original name; for piped names the parts before the first and after the
last `'|'`; the version-stripped base when the name looks like
accession-with-version; then the group of the first `re.search` match of each
of the three accession patterns, in pattern order. -/
def variationsGen (name : String) : List String :=
  let l := name.toList
  [name]
    ++ (if l.contains '|' then
          let parts := splitOnChar '|' l
          [String.mk (parts.headD []), String.mk (parts.getLastD [])]
        else [])
    ++ (if l.contains '.' && matchAccVer l then [String.mk (l.takeWhile (fun c => c != '.'))]
        else [])
    ++ (match searchFirst matchGenBankAt l with | some g => [String.mk g] | none => [])
    ++ (match searchFirst matchRefSeqAt l with | some g => [String.mk g] | none => [])
    ++ (match searchFirst matchVersionedAt l with | some g => [String.mk g] | none => [])

/-- Python `variation in taxonomy_dict` over an association-list dict. -/
def dictHasKey (dict : List (String × String)) (v : String) : Bool :=
  dict.any (fun e => e.1 == v)

/-- Python `taxonomy_dict[v]`-style lookup (first matching entry). -/
def lookupTax (dict : List (String × String)) (v : String) : Option String :=
  (dict.find? (fun e => e.1 == v)).map (fun e => e.2)

/-- The caller's probe loop (decorate_tree.py, lines 261–265): walk a list of
candidate variations and accept the first one that is a key of the table. -/
def acceptFirst (vars : List String) (dict : List (String × String)) : Option String :=
  vars.find? (fun v => dictHasKey dict v)

/-- A possible value of Python's `list(set(xs))`: a duplicate-free list with
exactly the elements of `xs`; the iteration order of a Python `set` is
unspecified (hash-dependent), so every such list is a possible result. -/
def pySetList (ls xs : List String) : Prop :=
  ls.Nodup ∧ List.Perm ls xs.dedup

/-- The rank-index table of `get_taxonomy_level` (decorate_tree.py, lines
20–30), with the Python `dict.get(level.lower(), 0)` default. -/
def levelIndex (level : String) : ℕ :=
  match pyLowerStr level with
  | "domain" => 0
  | "phylum" => 1
  | "class" => 2
  | "order" => 3
  | "family" => 4
  | "genus" => 5
  | "species" => 6
  | _ => 0

/-- `get_taxonomy_level(taxonomy, level)` (decorate_tree.py, lines 14–34):
`'Unknown'` for a falsy taxonomy, the literal `'Unknown'`, or a string with no
`';'` at all; otherwise the `';'`-split field at the rank index, or
`'Unknown'` when the index is out of range (`parts[idx] if idx < len(parts)
else 'Unknown'` is `List.getD`). -/
def getTaxonomyLevel (taxonomy level : String) : String :=
  if taxonomy = "" || taxonomy = "Unknown" || !(taxonomy.toList.contains ';') then "Unknown"
  else (pySplitChar ';' taxonomy).getD (levelIndex level) "Unknown"

/-- The classifier for one leaf (decorate_tree.py, lines 256–271): probe the
variations (in the order the deduplicated set happens to iterate, passed here
as `vars`) against the table; an unmatched leaf keeps taxonomy `'Unknown'` and
category `'Unknown'`; a matched one gets `get_taxonomy_level` of the stored
string.  (When the stored string is itself `'Unknown'`, both the Python
short-circuit and `get_taxonomy_level` yield `'Unknown'`, so the embedding
folds the two.) -/
def classifyDT (vars : List String) (dict : List (String × String)) (level : String) : String :=
  match acceptFirst vars dict with
  | none => "Unknown"
  | some v =>
    match lookupTax dict v with
    | none => "Unknown"
    | some t => getTaxonomyLevel t level

/-! ## tree_stats.py — per-query statistics -/

/-- A Python scalar as it ends up in the stats row: a float, the float
`inf`, the square root of a rational (np.std values — only the distinction
from the `'na'` marker matters to the claims), or a string. -/
inductive PyVal where
  | num (q : ℚ)
  | inf
  | sqrtNum (q : ℚ)
  | str (s : String)
deriving DecidableEq

/-- `get_taxonomy_category` (tree_stats.py, lines 6–10): the field before the
first `';'` when it is one of the four broad categories, else `"Other"`. -/
def taxCategory (t : String) : String :=
  let mc := String.mk (t.toList.takeWhile (fun c => c != ';'))
  if mc ∈ ["Bacteria", "Viruses", "Eukaryota", "Archaea"] then mc else "Other"

/-- One step of the membership scan (tree_stats.py, lines 64–68): the distance
of a leaf when its taxonomy-table entry classifies to the tracked category
`cat`, `none` otherwise (no table entry, or another category). -/
def catStep (dict : List (String × String)) (cat : String) (p : String × ℚ) : Option ℚ :=
  match lookupTax dict p.1 with
  | some t => if taxCategory t == cat then some p.2 else none
  | none => none

/-- The per-category distance list (tree_stats.py, lines 62–68) projected at
one of the four tracked categories `cat`: distances of the leaves whose
taxonomy-table entry classifies to `cat`, in traversal order. -/
def categoryDistances (dict : List (String × String)) (leaves : List (String × ℚ))
    (cat : String) : List ℚ :=
  leaves.filterMap (catStep dict cat)

/-- `distance < category_neighbors[category]['distance']` where the stored
value starts as `float('inf')` (tree_stats.py, lines 50–59). -/
def pvLt (d : ℚ) : PyVal → Bool
  | PyVal.inf => true
  | PyVal.num q => decide (d < q)
  | _ => false

/-- One step of the nearest-member fold (tree_stats.py, lines 52–59): update
the running `(distance, taxonomy)` pair when the leaf is a member of the
tracked category and strictly closer than the stored distance. -/
def nearestStep (dict : List (String × String)) (cat : String) (acc : PyVal × String)
    (p : String × ℚ) : PyVal × String :=
  match lookupTax dict p.1 with
  | some t =>
    if taxCategory t == cat then
      if pvLt p.2 acc.1 then (PyVal.num p.2, t) else acc
    else acc
  | none => acc

/-- The nearest-member fold (tree_stats.py, lines 50–59) for one tracked
category: the running `(distance, taxonomy)` pair starts as
`(float('inf'), '')`. -/
def nearestCategory (dict : List (String × String)) (leaves : List (String × ℚ))
    (cat : String) : PyVal × String :=
  List.foldl (nearestStep dict cat) (PyVal.inf, "") leaves

/-- `np.mean(distances) if distances else 'na'` (tree_stats.py, line 70). -/
def meanV (l : List ℚ) : PyVal :=
  if l.isEmpty then PyVal.str "na" else PyVal.num (l.sum / l.length)

/-- `np.std(distances) if distances else 'na'` (line 71): the population
standard deviation, embedded as the square root of the population variance. -/
def stdV (l : List ℚ) : PyVal :=
  if l.isEmpty then PyVal.str "na"
  else PyVal.sqrtNum ((l.map (fun x => (x - l.sum / l.length) ^ 2)).sum / l.length)

/-- `sorted(distances)[:3]` statistics (tree_stats.py, lines 75–80): filled in
only when the category has at least 3 members, else the `'na'` initial. -/
def mean3V (l : List ℚ) : PyVal :=
  if 3 ≤ l.length then meanV ((List.insertionSort (· ≤ ·) l).take 3) else PyVal.str "na"

/-- As `mean3V`, for the standard deviation (line 80). -/
def std3V (l : List ℚ) : PyVal :=
  if 3 ≤ l.length then stdV ((List.insertionSort (· ≤ ·) l).take 3) else PyVal.str "na"

/-- `tree.search_nodes(name=query)` restricted to leaves (tree_stats.py, line
34 — only the name filter matters for resolution). -/
def searchNodes (leafNames : List String) (name : String) : List String :=
  leafNames.filter (fun n => n == name)

/-- The per-query loop of `calculate_tree_stats` (lines 33–34) reduced to its
resolution behaviour: `tree.search_nodes(name=query)[0]` raises `IndexError`
on a query with no matching leaf, aborting the whole run — embedded as
`Except.error` carrying the offending query; otherwise the resolved leaf name
is recorded and the remaining queries are processed. -/
def statsQueryLoop (leafNames : List String) : List String → Except String (List String)
  | [] => Except.ok []
  | q :: rest =>
    match (searchNodes leafNames q).head? with
    | none => Except.error q
    | some n => (statsQueryLoop leafNames rest).map (fun r => n :: r)

/-! ## Order lemmas for the sort relations -/

theorem charListLt_trans :
    ∀ {a b c : List Char}, charListLt a b = true → charListLt b c = true →
      charListLt a c = true := by
  intro a
  induction a with
  | nil =>
    intro b c hab hbc
    cases b <;> cases c <;> simp_all [charListLt]
  | cons x xs ih =>
    intro b c hab hbc
    cases b with
    | nil => simp [charListLt] at hab
    | cons y ys =>
      cases c with
      | nil => simp [charListLt] at hbc
      | cons z zs =>
        simp only [charListLt] at hab hbc ⊢
        by_cases h1 : x < y
        · by_cases h2 : y < z
          · simp [lt_trans h1 h2]
          · by_cases h3 : z < y
            · simp [h2, h3] at hbc
            · have hyz : y = z := le_antisymm (not_lt.mp h3) (not_lt.mp h2)
              simp [hyz ▸ h1]
        · by_cases h1' : y < x
          · simp [h1, h1'] at hab
          · have hxy : x = y := le_antisymm (not_lt.mp h1') (not_lt.mp h1)
            subst hxy
            rw [if_neg h1, if_neg h1] at hab
            by_cases h2 : x < z
            · simp [h2]
            · by_cases h3 : z < x
              · rw [if_neg h2, if_pos h3] at hbc
                simp at hbc
              · rw [if_neg h2, if_neg h3] at hbc
                rw [if_neg h2, if_neg h3]
                exact ih hab hbc

theorem charListLt_total :
    ∀ (a b : List Char), charListLt a b = true ∨ a = b ∨ charListLt b a = true := by
  intro a
  induction a with
  | nil =>
    intro b
    cases b <;> simp [charListLt]
  | cons x xs ih =>
    intro b
    cases b with
    | nil => simp [charListLt]
    | cons y ys =>
      rcases lt_trichotomy x y with h | h | h
      · exact Or.inl (by simp [charListLt, h])
      · subst h
        rcases ih ys with h2 | h2 | h2
        · exact Or.inl (by simp [charListLt, h2])
        · exact Or.inr (Or.inl (by rw [h2]))
        · exact Or.inr (Or.inr (by simp [charListLt, h2]))
      · exact Or.inr (Or.inr (by simp [charListLt, h]))

theorem strLtB_trans {a b c : String} (h1 : strLtB a b = true) (h2 : strLtB b c = true) :
    strLtB a c = true := charListLt_trans h1 h2

theorem strLtB_total (a b : String) : strLtB a b = true ∨ a = b ∨ strLtB b a = true := by
  rcases charListLt_total a.toList b.toList with h | h | h
  · exact Or.inl h
  · refine Or.inr (Or.inl ?_)
    cases a; cases b
    simpa [String.toList] using congrArg String.mk h
  · exact Or.inr (Or.inr h)

instance : IsTotal (ℚ × String) lexLe := by
  constructor
  intro a b
  rcases lt_trichotomy a.1 b.1 with h | h | h
  · exact Or.inl (Or.inl h)
  · rcases strLtB_total a.2 b.2 with h2 | h2 | h2
    · exact Or.inl (Or.inr ⟨h, Or.inl h2⟩)
    · exact Or.inl (Or.inr ⟨h, Or.inr h2⟩)
    · exact Or.inr (Or.inr ⟨h.symm, Or.inl h2⟩)
  · exact Or.inr (Or.inl h)

instance : IsTrans (ℚ × String) lexLe := by
  constructor
  intro a b c hab hbc
  rcases hab with h1 | ⟨h1, h1'⟩
  · rcases hbc with h2 | ⟨h2, _⟩
    · exact Or.inl (lt_trans h1 h2)
    · exact Or.inl (h2 ▸ h1)
  · rcases hbc with h2 | ⟨h2, h2'⟩
    · exact Or.inl (h1 ▸ h2)
    · refine Or.inr ⟨h1.trans h2, ?_⟩
      rcases h1' with hs1 | hs1
      · rcases h2' with hs2 | hs2
        · exact Or.inl (strLtB_trans hs1 hs2)
        · exact Or.inl (hs2 ▸ hs1)
      · rcases h2' with hs2 | hs2
        · exact Or.inl (hs1 ▸ hs2)
        · exact Or.inr (hs1.trans hs2)

instance : IsTotal (String × ℚ) byDist := ⟨fun a b => le_total a.2 b.2⟩

instance : IsTrans (String × ℚ) byDist := ⟨fun _ _ _ h1 h2 => le_trans h1 h2⟩

/-! ## Plumbing lemmas for the selectors -/

theorem ratioScan_eq_takeWhile (c : ℚ) (l : List (ℚ × String)) :
    ratioScan c l = l.takeWhile (withinCutoff c) := by
  induction l with
  | nil => rfl
  | cons p rest ih =>
    by_cases h : p.1 ≤ c
    · simp [ratioScan, withinCutoff, h, List.takeWhile_cons, ih]
    · simp [ratioScan, withinCutoff, h, List.takeWhile_cons]

theorem head?_dropWhile_eq_false {α : Type} (p : α → Bool) :
    ∀ (l : List α) (a : α), (l.dropWhile p).head? = some a → p a = false := by
  intro l
  induction l with
  | nil => intro a h; simp [List.dropWhile] at h
  | cons x xs ih =>
    intro a h
    rw [List.dropWhile_cons] at h
    by_cases hx : p x
    · rw [if_pos hx] at h; exact ih a h
    · rw [if_neg hx] at h
      simp only [List.head?_cons, Option.some.injEq] at h
      exact h ▸ (Bool.eq_false_iff.mpr hx)

theorem mem_sortedCandidates_iff {qid tid : String} {leaves : List (String × ℚ)}
    {p : ℚ × String} :
    p ∈ sortedCandidates qid tid leaves ↔ p ∈ closestCandidates qid tid leaves :=
  (List.perm_insertionSort lexLe _).mem_iff

theorem of_mem_closestCandidates {qid tid : String} {leaves : List (String × ℚ)}
    {p : ℚ × String} (h : p ∈ closestCandidates qid tid leaves) :
    p.2 ∈ leaves.map Prod.fst ∧ p.2 ≠ tid ∧ firstField p.2 ≠ firstField qid := by
  obtain ⟨a, ha, hfa⟩ := List.mem_filterMap.mp h
  by_cases h1 : a.1 = tid
  · simp [h1] at hfa
  · by_cases h2 : firstField a.1 = firstField qid
    · simp [h1, h2] at hfa
    · rw [if_neg (by simpa using h1), if_neg (by simpa using h2)] at hfa
      have hp := Option.some.inj hfa
      subst hp
      exact ⟨List.mem_map_of_mem Prod.fst ha, h1, h2⟩

theorem mem_selectClosest {qid tid : String} {leaves : List (String × ℚ)} {num : ℕ}
    {p : ℚ × String} (h : p ∈ selectClosest qid tid leaves num) :
    p ∈ sortedCandidates qid tid leaves := by
  unfold selectClosest at h
  cases hs : sortedCandidates qid tid leaves with
  | nil => rw [hs] at h; simp at h
  | cons hd tl =>
    obtain ⟨d0, n0⟩ := hd
    rw [hs] at h
    have h1 : p ∈ ratioScan (d0 * 2) ((d0, n0) :: tl) := List.mem_of_mem_take h
    rw [ratioScan_eq_takeWhile] at h1
    have h2 := List.takeWhile_prefix (l := (d0, n0) :: tl) (withinCutoff (d0 * 2))
    exact h2.subset h1

theorem resolveQuery_ne_imp {q : String} {names : List String} {t : String}
    (h : resolveQuery q names = some t) (hne : t ≠ q) : q ∉ names := by
  intro hq
  have hc : names.contains q = true := by
    simpa using hq
  unfold resolveQuery at h
  rw [List.find?_cons_of_pos _ hc] at h
  exact hne (Option.some.inj h).symm

theorem of_mem_phyloSortedCandidates {qn : String} {leaves : List (String × ℚ)}
    {r : String × ℚ} (h : r ∈ phyloSortedCandidates qn leaves) :
    r ∈ leaves ∧ r.1 ≠ qn := by
  have hm := (List.perm_insertionSort byDist _).mem_iff.mp h
  have := List.mem_filter.mp hm
  exact ⟨this.1, by simpa using this.2⟩

theorem mem_phyloLoop {qpre : String} {prefixes : List String} {thr : ℚ} {num : ℕ} :
    ∀ (l : List (String × ℚ)) (count : ℕ) (r : String × ℚ),
      r ∈ phyloLoop qpre prefixes thr num count l →
      r ∈ l ∧ phyloSkip qpre prefixes thr r.1 r.2 = false := by
  intro l
  induction l with
  | nil => intro c r h; simp [phyloLoop] at h
  | cons p rest ih =>
    intro c r h
    simp only [phyloLoop] at h
    by_cases hs : phyloSkip qpre prefixes thr p.1 p.2
    · rw [if_pos hs] at h
      obtain ⟨hm, hsk⟩ := ih c r h
      exact ⟨List.mem_cons_of_mem p hm, hsk⟩
    · rw [if_neg hs] at h
      rcases List.mem_cons.mp h with hr | hr
      · subst hr
        exact ⟨List.mem_cons_self _ rest, Bool.eq_false_iff.mpr hs⟩
      · by_cases hn : c + 1 ≥ num
        · rw [if_pos hn] at hr; simp at hr
        · rw [if_neg hn] at hr
          obtain ⟨hm, hsk⟩ := ih (c + 1) r hr
          exact ⟨List.mem_cons_of_mem p hm, hsk⟩

theorem of_mem_phyloSelect {qn : String} {prefixes : List String} {thr : ℚ} {num : ℕ}
    {leaves : List (String × ℚ)} {r : String × ℚ}
    (h : r ∈ phyloSelect qn prefixes thr num leaves) :
    (r ∈ leaves ∧ r.1 ≠ qn) ∧ phyloSkip (firstField qn) prefixes thr r.1 r.2 = false := by
  obtain ⟨hm, hsk⟩ := mem_phyloLoop _ 0 r h
  exact ⟨of_mem_phyloSortedCandidates hm, hsk⟩

/-! ## Further helper lemmas -/

theorem pyStartswith_firstField (s : String) : pyStartswith s (firstField s) = true := by
  show (firstField s).toList.isPrefixOf s.toList = true
  have he : (firstField s).toList = s.toList.takeWhile (fun c => c != '|') := rfl
  rw [he, List.isPrefixOf_iff_prefix]
  exact List.takeWhile_prefix _

theorem nearestStep_of_catStep_none {dict : List (String × String)} {cat : String}
    {p : String × ℚ} (h : catStep dict cat p = none) (acc : PyVal × String) :
    nearestStep dict cat acc p = acc := by
  cases hl : lookupTax dict p.1 with
  | none => simp [nearestStep, hl]
  | some t =>
    simp only [catStep, hl] at h
    by_cases hc : (taxCategory t == cat) = true
    · rw [if_pos hc] at h; simp at h
    · simp [nearestStep, hl, hc]

theorem foldl_nearestStep_of_empty {dict : List (String × String)} {cat : String} :
    ∀ (ls : List (String × ℚ)), ls.filterMap (catStep dict cat) = [] →
      ∀ acc, List.foldl (nearestStep dict cat) acc ls = acc := by
  intro ls
  induction ls with
  | nil => intro _ acc; rfl
  | cons p rest ih =>
    intro hem acc
    rw [List.filterMap_cons] at hem
    cases hc : catStep dict cat p with
    | none =>
      rw [hc] at hem
      rw [List.foldl_cons, nearestStep_of_catStep_none hc acc]
      exact ih hem acc
    | some d => rw [hc] at hem; simp at hem

/-! ## Claim theorems -/

/-- Claim C1: for every query whose candidate list (after self-hit exclusion)
is non-empty, the selector applies the ratio cutoff with `d0` the smallest
candidate distance: every returned neighbor has distance `≤ 2 * d0`; the first
candidate excluded by the forward scan (if any) has distance `> 2 * d0`; and
the scan is a single forward pass over the distance-sorted candidates that
stops at the first pair exceeding the cutoff (it equals the `takeWhile` of the
cutoff test). -/
theorem ratio_cutoff_single_forward_scan
    (qid tid : String) (leaves : List (String × ℚ)) (num : ℕ) (d0 : ℚ) (n0 : String)
    (h : (sortedCandidates qid tid leaves).head? = some (d0, n0)) :
    (∀ p ∈ sortedCandidates qid tid leaves, d0 ≤ p.1) ∧
    (∀ p ∈ selectClosest qid tid leaves num, p.1 ≤ d0 * 2) ∧
    (∀ q, ((sortedCandidates qid tid leaves).dropWhile (withinCutoff (d0 * 2))).head?
        = some q → d0 * 2 < q.1) ∧
    ratioScan (d0 * 2) (sortedCandidates qid tid leaves)
      = (sortedCandidates qid tid leaves).takeWhile (withinCutoff (d0 * 2)) := by
  have hsorted : List.Sorted lexLe (sortedCandidates qid tid leaves) :=
    List.sorted_insertionSort lexLe _
  refine ⟨?_, ?_, ?_, ratioScan_eq_takeWhile _ _⟩
  · intro p hp
    cases hs : sortedCandidates qid tid leaves with
    | nil => rw [hs] at hp; simp at hp
    | cons hd tl =>
      rw [hs] at h
      simp only [List.head?_cons, Option.some.injEq] at h
      subst h
      rw [hs] at hp hsorted
      rcases List.mem_cons.mp hp with hh | hh
      · rw [hh]
      · rcases (List.pairwise_cons.mp hsorted).1 p hh with h1 | ⟨h1, _⟩
        · exact le_of_lt h1
        · exact le_of_eq h1
  · intro p hp
    unfold selectClosest at hp
    cases hs : sortedCandidates qid tid leaves with
    | nil => rw [hs] at h; simp at h
    | cons hd tl =>
      rw [hs] at h
      simp only [List.head?_cons, Option.some.injEq] at h
      subst h
      rw [hs] at hp
      have hscan : p ∈ ratioScan (d0 * 2) ((d0, n0) :: tl) := List.mem_of_mem_take hp
      rw [ratioScan_eq_takeWhile] at hscan
      have := List.mem_takeWhile_imp hscan
      exact of_decide_eq_true this
  · intro q hq
    have := head?_dropWhile_eq_false _ _ q hq
    have hnot : ¬ (q.1 ≤ d0 * 2) := of_decide_eq_false this
    exact not_le.mp hnot

/-- Witness for C1 at the spec's own scenario (distances scaled by 100): query
`A`, candidates `C(25)`, `B(30)`, `D(55)`; `d0 = 25`. -/
theorem ratio_cutoff_single_forward_scan_witness :
    (∀ p ∈ sortedCandidates "A" "A" [("A", 0), ("B", 30), ("C", 25), ("D", 55)],
      (25 : ℚ) ≤ p.1) ∧
    (∀ p ∈ selectClosest "A" "A" [("A", 0), ("B", 30), ("C", 25), ("D", 55)] 2,
      p.1 ≤ 25 * 2) ∧
    (∀ q, ((sortedCandidates "A" "A" [("A", 0), ("B", 30), ("C", 25), ("D", 55)]).dropWhile
        (withinCutoff (25 * 2))).head? = some q → (25 : ℚ) * 2 < q.1) ∧
    ratioScan ((25 : ℚ) * 2) (sortedCandidates "A" "A" [("A", 0), ("B", 30), ("C", 25), ("D", 55)])
      = (sortedCandidates "A" "A" [("A", 0), ("B", 30), ("C", 25), ("D", 55)]).takeWhile
          (withinCutoff (25 * 2)) :=
  ratio_cutoff_single_forward_scan "A" "A" [("A", 0), ("B", 30), ("C", 25), ("D", 55)] 2 25 "C"
    (by decide)

/-- Claim C2: neither selector ever emits a record whose neighbor identifier
equals the query identifier or shares the query identifier's genome prefix
(first `'|'`-field, exact case-sensitive comparison). -/
theorem selectors_never_return_self_or_same_genome :
    (∀ (qid tid : String) (leaves : List (String × ℚ)) (num : ℕ),
        resolveQuery qid (leaves.map Prod.fst) = some tid →
        ∀ p ∈ selectClosest qid tid leaves num,
          p.2 ≠ qid ∧ firstField p.2 ≠ firstField qid) ∧
    (∀ (qn : String) (prefixes : List String) (thr : ℚ) (num : ℕ)
        (leaves : List (String × ℚ)),
        ∀ r ∈ phyloSelect qn prefixes thr num leaves,
          r.1 ≠ qn ∧ firstField r.1 ≠ firstField qn) := by
  constructor
  · intro qid tid leaves num hres p hp
    have hc := of_mem_closestCandidates (mem_sortedCandidates_iff.mp (mem_selectClosest hp))
    refine ⟨?_, hc.2.2⟩
    by_cases htid : tid = qid
    · exact htid ▸ hc.2.1
    · intro hpq
      exact resolveQuery_ne_imp hres htid (hpq ▸ hc.1)
  · intro qn prefixes thr num leaves r hr
    obtain ⟨⟨_, hne⟩, hsk⟩ := of_mem_phyloSelect hr
    refine ⟨hne, fun heq => ?_⟩
    simp [phyloSkip, heq] at hsk

/-- Witness for C2: a concrete selected neighbor of each variant. -/
theorem selectors_never_return_self_or_same_genome_witness :
    (((25 : ℚ), "C").2 ≠ "A" ∧ firstField ((25 : ℚ), "C").2 ≠ firstField "A") ∧
    (("WP_B|x", (5 : ℚ)).1 ≠ "Hy_A|1" ∧
      firstField ("WP_B|x", (5 : ℚ)).1 ≠ firstField "Hy_A|1") := by
  constructor
  · refine selectors_never_return_self_or_same_genome.1 "A" "A"
      [("A", 0), ("B", 30), ("C", 25), ("D", 55)] 2 (by decide) ((25 : ℚ), "C") ?_
    norm_num [selectClosest, sortedCandidates, closestCandidates, List.insertionSort,
      List.orderedInsert, lexLe, strLtB, charListLt, firstField, ratioScan]
  · exact selectors_never_return_self_or_same_genome.2 "Hy_A|1" ["Hy"] 1 5
      [("Hy_A|1", 0), ("WP_B|x", 5)] ("WP_B|x", 5) (by decide)

/-- Claim C10: the guard `neighbor_name.startswith(neighbor_prefix)` of the
alternate self-hit policy is true for every identifier (the first field is by
construction a string prefix of the name), so a candidate surviving the
genome-prefix and configured-prefix filters is skipped iff its distance is
strictly below `self_hit_threshold`. -/
theorem phylo_threshold_guard_always_applies :
    (∀ s : String, pyStartswith s (firstField s) = true) ∧
    (∀ (qpre : String) (prefixes : List String) (thr : ℚ) (name : String) (d : ℚ),
        firstField name ≠ qpre → prefixes.contains (firstField name) = false →
        (phyloSkip qpre prefixes thr name d = true ↔ d < thr)) := by
  refine ⟨pyStartswith_firstField, ?_⟩
  intro qpre prefixes thr name d h1 h2
  have hmem : firstField name ∉ prefixes := by simpa using h2
  simp [phyloSkip, h1, hmem, pyStartswith_firstField]

/-- Witness for C10 at a concrete surviving candidate. -/
theorem phylo_threshold_guard_always_applies_witness :
    pyStartswith "Hy_A|1" (firstField "Hy_A|1") = true ∧
    (phyloSkip "Q" [] 1 "WP_1|x" 5 = true ↔ (5 : ℚ) < 1) :=
  ⟨phylo_threshold_guard_always_applies.1 "Hy_A|1",
    phylo_threshold_guard_always_applies.2 "Q" [] 1 "WP_1|x" 5 (by decide) (by decide)⟩

/-- The ordering discipline asserted by the spec for candidate lists: strictly
increasing distance, with ties broken by leaf name in lexical order. -/
def distThenNameLt (a b : String × ℚ) : Prop :=
  a.2 < b.2 ∨ (a.2 = b.2 ∧ strLtB a.1 b.1 = true)

instance : DecidableRel distThenNameLt := fun a b => by unfold distThenNameLt; infer_instance

/-- Claim C3 counterexample: in the taxonomy-aware selector with query
prefixes `["Hy"]`, the leaf `"Hy_B|2"` is itself a designated query (it starts
with `"Hy"`), yet it is returned as a neighbor of the query `"Hy_A|1"` — the
code only excludes candidates whose genome prefix is *exactly* a configured
prefix, and `"Hy_B" ≠ "Hy"`. -/
theorem cross_query_exclusion_counterexample :
    isQueryLeaf ["Hy"] "Hy_B|2" = true ∧
    ("Hy_B|2", (5 : ℚ)) ∈
      phyloSelect "Hy_A|1" ["Hy"] 1 5 [("Hy_A|1", 0), ("Hy_B|2", 5)] :=
  ⟨by decide, by decide⟩

/-- Claim C3 (amended): the taxonomy-aware selector's cross-query exclusion
drops exactly the candidates whose genome prefix equals one of the configured
query prefixes — every returned record's genome prefix is outside the
configured prefix list.  Leaves that are designated queries but whose genome
prefix differs from every configured prefix are not excluded, and the
pure-topology variant performs no cross-query exclusion at all. -/
theorem phylo_excludes_configured_prefix_matches :
    ∀ (qn : String) (prefixes : List String) (thr : ℚ) (num : ℕ)
      (leaves : List (String × ℚ)),
      ∀ r ∈ phyloSelect qn prefixes thr num leaves,
        prefixes.contains (firstField r.1) = false := by
  intro qn prefixes thr num leaves r hr
  obtain ⟨_, hsk⟩ := of_mem_phyloSelect hr
  simp only [phyloSkip, Bool.or_eq_false_iff] at hsk
  exact hsk.1.2

/-- Witness for the amended C3 at a concrete selected neighbor. -/
theorem phylo_excludes_configured_prefix_matches_witness :
    (["Hy"].contains (firstField "WP_B|x")) = false :=
  phylo_excludes_configured_prefix_matches "Hy_A|1" ["Hy"] 1 5
    [("Hy_A|1", 0), ("WP_B|x", 5)] ("WP_B|x", 5) (by decide)

/-- Claim C4 counterexample: the taxonomy-aware selector sorts by distance
only, so two candidates at the same distance stay in tree-traversal order,
not lexical name order: with traversal order `WP_B` before `WP_A` (both at
distance 1), the sorted candidate list keeps `WP_B` first even though
`WP_A < WP_B` lexically. -/
theorem phylo_sort_name_ties_counterexample :
    phyloSortedCandidates "Q" [("Q", 0), ("WP_B", 1), ("WP_A", 1)]
      = [("WP_B", 1), ("WP_A", 1)] ∧
    strLtB "WP_A" "WP_B" = true ∧
    ¬ List.Chain' distThenNameLt [("WP_B", (1 : ℚ)), ("WP_A", 1)] := by
  refine ⟨by decide, by decide, ?_⟩
  intro h
  rcases List.chain'_cons.mp h with ⟨hrel, _⟩
  rcases hrel with h1 | ⟨_, h2⟩
  · exact absurd h1 (by decide)
  · exact absurd h2 (by decide)

/-- Claim C4 (amended): the pure-topology selector sorts candidates ascending
by distance with ties broken by leaf name (Python tuple order), so its output
is fully deterministic; the taxonomy-aware selector sorts ascending by
distance only — a stable sort whose ties keep tree-traversal order. -/
theorem selector_sort_disciplines :
    (∀ (qid tid : String) (leaves : List (String × ℚ)),
        List.Sorted lexLe (sortedCandidates qid tid leaves)) ∧
    (∀ (qn : String) (leaves : List (String × ℚ)),
        List.Sorted byDist (phyloSortedCandidates qn leaves)) :=
  ⟨fun _ _ _ => List.sorted_insertionSort lexLe _,
   fun _ _ => List.sorted_insertionSort byDist _⟩

/-- Claim C5 counterexample: `get_accession_variations` ends with
`list(set(variations))`, and a Python set iterates in unspecified
(hash-dependent) order.  For `"Foo|WP_12345"` the generated variations are
`["Foo|WP_12345", "Foo", "WP_12345"]`; with a table keyed by both the
unmodified name and `"WP_12345"`, the set order putting `"WP_12345"` first is
a possible iteration order and makes the probe accept `"WP_12345"`, while
generation order would accept the unmodified identifier — so generation-order
priority (and the unmodified identifier winning) is not guaranteed. -/
theorem variation_priority_counterexample :
    pySetList ["WP_12345", "Foo", "Foo|WP_12345"] (variationsGen "Foo|WP_12345") ∧
    acceptFirst ["WP_12345", "Foo", "Foo|WP_12345"]
        [("Foo|WP_12345", "T1"), ("WP_12345", "T2")] = some "WP_12345" ∧
    acceptFirst (variationsGen "Foo|WP_12345")
        [("Foo|WP_12345", "T1"), ("WP_12345", "T2")] = some "Foo|WP_12345" ∧
    ("WP_12345" : String) ≠ "Foo|WP_12345" :=
  ⟨⟨by decide, by decide⟩, by decide, by decide, by decide⟩

/-- Claim C5 (amended): the probe accepts the first table key in the
deduplicated set's iteration order, which is unspecified and need not follow
generation order; the outcome is order-independent exactly when at most one
variation is a table key — when exactly one generated variation is a key,
every possible set order accepts that variation. -/
theorem variation_lookup_unique_key :
    ∀ (name : String) (dict : List (String × String)) (ls : List String) (v : String),
      pySetList ls (variationsGen name) →
      v ∈ variationsGen name → dictHasKey dict v = true →
      (∀ w ∈ variationsGen name, dictHasKey dict w = true → w = v) →
      acceptFirst ls dict = some v := by
  intro name dict ls v hset hv hkey huniq
  obtain ⟨_, hperm⟩ := hset
  have hvls : v ∈ ls := hperm.mem_iff.mpr (List.mem_dedup.mpr hv)
  cases hfind : acceptFirst ls dict with
  | none =>
    have := List.find?_eq_none.mp hfind v hvls
    exact absurd hkey this
  | some w =>
    have hw1 : dictHasKey dict w = true := List.find?_some hfind
    have hw2 : w ∈ ls := List.mem_of_find?_eq_some hfind
    have hw3 : w ∈ variationsGen name := List.mem_dedup.mp (hperm.mem_iff.mp hw2)
    rw [huniq w hw3 hw1]

/-- Witness for the amended C5: a unique-key table probed in a non-generation
set order still accepts the unique key. -/
theorem variation_lookup_unique_key_witness :
    acceptFirst ["WP_12345", "Foo", "Foo|WP_12345"] [("WP_12345", "T2")]
      = some "WP_12345" :=
  variation_lookup_unique_key "Foo|WP_12345" [("WP_12345", "T2")]
    ["WP_12345", "Foo", "Foo|WP_12345"] "WP_12345"
    ⟨by decide, by decide⟩ (by decide) (by decide) (by decide)

/-- Claim C6 counterexample: `calculate_tree_stats` resolves a query with
`tree.search_nodes(name=query)[0]` — no variation set, no warning-and-skip: a
query absent from the tree raises `IndexError` and aborts the run (embedded as
`Except.error`), instead of contributing no records and continuing. -/
theorem stats_unresolved_query_aborts :
    statsQueryLoop ["L1"] ["QX", "L1"] = Except.error "QX" ∧
    (Except.error "QX" : Except String (List String)) ≠ Except.ok ["L1"] :=
  ⟨rfl, by simp⟩

/-- Claim C6 (amended): the neighbor-extraction engine warns and skips a query
whose identifier resolves to no tree leaf via the variation list — the query
contributes no rows, the remaining queries are processed unchanged, and
nothing is raised (the embedding is total).  The statistics computation does
not have this behaviour (see the counterexample). -/
theorem extraction_skips_unresolved_queries :
    ∀ (prefixFilter qs1 qs2 : List String) (q : String)
      (leaves : List (String × ℚ)) (num : ℕ),
      resolveQuery q (leaves.map Prod.fst) = none →
      extractRows prefixFilter (qs1 ++ q :: qs2) leaves num
        = extractRows prefixFilter (qs1 ++ qs2) leaves num := by
  intro pf qs1 qs2 q leaves num hnone
  unfold extractRows queryNodes
  simp [List.filterMap_append, List.filterMap_cons, hnone]

/-- Witness for the amended C6: one unresolvable query dropped from a batch. -/
theorem extraction_skips_unresolved_queries_witness :
    extractRows [] ([] ++ "QX" :: ["A"]) [("L1", 7)] 3
      = extractRows [] ([] ++ ["A"]) [("L1", 7)] 3 :=
  extraction_skips_unresolved_queries [] [] ["A"] "QX" [("L1", 7)] 3 (by decide)

/-- Claim C7 counterexample: for an identifier present in the table with the
one-field taxonomy string `"Bacteria"` (no semicolon), rank `domain` (index 0)
is in range of the split — the claim requires the field `"Bacteria"`, but
`get_taxonomy_level` returns `"Unknown"` for any stored string without a
`';'`. -/
theorem classifier_single_field_counterexample :
    classifyDT (variationsGen "Q1") [("Q1", "Bacteria")] "domain" = "Unknown" ∧
    pySplitChar ';' "Bacteria" = ["Bacteria"] ∧
    levelIndex "domain" = 0 ∧
    ("Unknown" : String) ≠ "Bacteria" :=
  ⟨by decide, by decide, by decide, by decide⟩

/-- Claim C7 (amended): `classify` returns `"Unknown"` without raising for any
identifier none of whose probed variations is a table key; when a variation is
found, it returns the `';'`-split field at the rank index (domain=0 …
species=6) if the stored string contains a `';'` — with `"Unknown"` when the
string has fewer fields than the requested rank (the `getD` default) — and
returns `"Unknown"` for any stored string with no `';'` at all, even when the
single field would cover the requested rank. -/
theorem classifier_rank_extraction :
    ∀ (vars : List String) (dict : List (String × String)) (level : String),
      (acceptFirst vars dict = none → classifyDT vars dict level = "Unknown") ∧
      (∀ v t, acceptFirst vars dict = some v → lookupTax dict v = some t →
        (t.toList.contains ';' = false → classifyDT vars dict level = "Unknown") ∧
        (t.toList.contains ';' = true →
          classifyDT vars dict level
            = (pySplitChar ';' t).getD (levelIndex level) "Unknown")) := by
  intro vars dict level
  constructor
  · intro h
    simp [classifyDT, h]
  · intro v t hacc hlook
    constructor
    · intro hsemi
      have hnot : ';' ∉ t.data := by simpa [String.toList] using hsemi
      simp [classifyDT, hacc, hlook, getTaxonomyLevel, hnot]
    · intro hsemi
      have hin : ';' ∈ t.data := by simpa [String.toList] using hsemi
      have h1 : t ≠ "" := by
        intro h
        subst h
        simp at hin
      have h2 : t ≠ "Unknown" := by
        intro h
        subst h
        exact absurd hin (by decide)
      simp [classifyDT, hacc, hlook, getTaxonomyLevel, h1, h2, hin, String.toList]

/-- Witness for the amended C7: a two-field taxonomy string at rank phylum. -/
theorem classifier_rank_extraction_witness :
    classifyDT ["N1"] [("N1", "Bacteria;Proteo")] "phylum"
      = (pySplitChar ';' "Bacteria;Proteo").getD (levelIndex "phylum") "Unknown" :=
  ((classifier_rank_extraction ["N1"] [("N1", "Bacteria;Proteo")] "phylum").2 "N1"
    "Bacteria;Proteo" (by decide) (by decide)).2 (by decide)

/-- Claim C8 counterexample: for a query whose tree contains no Bacteria
member, the emitted nearest-Bacteria distance field stays `float('inf')` — a
numeric sentinel, not the `'na'` marker — and the identity field stays the
empty string (the mean/std fields do get `'na'`). -/
theorem empty_category_inf_counterexample :
    nearestCategory [("E1", "Eukaryota")] [("Q", 0), ("E1", 1)] "Bacteria"
      = (PyVal.inf, "") ∧
    PyVal.inf ≠ PyVal.str "na" ∧
    categoryDistances [("E1", "Eukaryota")] [("Q", 0), ("E1", 1)] "Bacteria" = [] ∧
    meanV (categoryDistances [("E1", "Eukaryota")] [("Q", 0), ("E1", 1)] "Bacteria")
      = PyVal.str "na" :=
  ⟨by decide, by decide, by decide, by decide⟩

/-- Claim C8 (amended): for a broad category with zero members present, the
mean/std fields over all members and over the 3 closest are the explicit
`'na'` marker, but the nearest-neighbor distance field is the numeric sentinel
`float('inf')` and the nearest-neighbor identity field is the empty string —
not `'na'` markers. -/
theorem empty_category_markers :
    ∀ (dict : List (String × String)) (leaves : List (String × ℚ)) (cat : String),
      categoryDistances dict leaves cat = [] →
      meanV (categoryDistances dict leaves cat) = PyVal.str "na" ∧
      stdV (categoryDistances dict leaves cat) = PyVal.str "na" ∧
      mean3V (categoryDistances dict leaves cat) = PyVal.str "na" ∧
      std3V (categoryDistances dict leaves cat) = PyVal.str "na" ∧
      nearestCategory dict leaves cat = (PyVal.inf, "") := by
  intro dict leaves cat hEmpty
  refine ⟨by simp [hEmpty, meanV], by simp [hEmpty, stdV], by simp [hEmpty, mean3V],
    by simp [hEmpty, std3V], ?_⟩
  exact foldl_nearestStep_of_empty leaves hEmpty (PyVal.inf, "")

/-- Witness for the amended C8 at the counterexample's input. -/
theorem empty_category_markers_witness :
    meanV (categoryDistances [("E1", "Eukaryota")] [("Q", 0), ("E1", 1)] "Bacteria")
      = PyVal.str "na" ∧
    stdV (categoryDistances [("E1", "Eukaryota")] [("Q", 0), ("E1", 1)] "Bacteria")
      = PyVal.str "na" ∧
    mean3V (categoryDistances [("E1", "Eukaryota")] [("Q", 0), ("E1", 1)] "Bacteria")
      = PyVal.str "na" ∧
    std3V (categoryDistances [("E1", "Eukaryota")] [("Q", 0), ("E1", 1)] "Bacteria")
      = PyVal.str "na" ∧
    nearestCategory [("E1", "Eukaryota")] [("Q", 0), ("E1", 1)] "Bacteria"
      = (PyVal.inf, "") :=
  empty_category_markers [("E1", "Eukaryota")] [("Q", 0), ("E1", 1)] "Bacteria" (by decide)

/-- Claim C9: for a missing or empty tree file, a "no hits" tree, an empty
query-id list, or an empty subject-id list, the engine writes a single-line
comment-prefixed sentinel marker instead of a result table and returns
(the embedding is a total function — nothing is raised). -/
theorem degenerate_inputs_produce_sentinel :
    ∀ (treeFile : Option String) (queryIds subjectIds prefixFilter : List String)
      (leaves : List (String × ℚ)) (num : ℕ),
      (treeFile = none ∨ treeFile = some "" ∨
        (∃ c, treeFile = some c ∧
          isSubstr "no hits".toList (pyLowerStr (pyStripStr c)).toList = true) ∨
        queryIds = [] ∨ subjectIds = []) →
      ∃ s, extractTop treeFile queryIds subjectIds prefixFilter leaves num
          = ExtractOutput.sentinel s ∧
        pyStartswith s "#" = true ∧ s.toList.contains '\n' = false := by
  intro tf qids sids pf leaves num hdeg
  cases tf with
  | none => exact ⟨"# No valid tree found", rfl, by decide, by decide⟩
  | some c =>
    simp only [extractTop]
    by_cases h1 : c = ""
    · rw [if_pos h1]
      exact ⟨"# No valid tree found", rfl, by decide, by decide⟩
    · rw [if_neg h1]
      by_cases h2 : isSubstr "no hits".toList (pyLowerStr (pyStripStr c)).toList = true
      · rw [if_pos h2]
        exact ⟨"# Tree indicates no hits", rfl, by decide, by decide⟩
      · rw [if_neg h2]
        by_cases h3 : qids.isEmpty = true
        · rw [if_pos h3]
          exact ⟨"# No query IDs found", rfl, by decide, by decide⟩
        · rw [if_neg h3]
          by_cases h4 : sids.isEmpty = true
          · rw [if_pos h4]
            exact ⟨"# No subject IDs found", rfl, by decide, by decide⟩
          · exfalso
            rcases hdeg with h | h | ⟨c', hc', hsub⟩ | h | h
            · exact Option.noConfusion h
            · exact h1 (Option.some.inj h)
            · exact h2 ((Option.some.inj hc') ▸ hsub)
            · exact h3 (by simp [h])
            · exact h4 (by simp [h])

/-- Witness for C9: the missing-tree condition. -/
theorem degenerate_inputs_produce_sentinel_witness :
    ∃ s, extractTop none [] [] [] [] 0 = ExtractOutput.sentinel s ∧
      pyStartswith s "#" = true ∧ s.toList.contains '\n' = false :=
  degenerate_inputs_produce_sentinel none [] [] [] [] 0 (Or.inl rfl)
